import Mathlib

/-!
Verification development for an automated pull-request code reviewer.

The program reacts to pull-request webhook events, fetches changed files,
parses each file's unified-diff patch, runs line-level pattern checks over
the added lines, scores patch complexity, and records Review / FileChange /
ReviewComment rows in a relational store.

Text is modelled as `List Char` (JavaScript strings are sequences of code
units; every string reaching the analysed code paths is plain text).  The
JavaScript regular expressions used by the source are deterministic on their
inputs (their alternatives are disjoint at each scan position), so each is
embedded as a direct scanning function with the same acceptance behaviour.
-/

namespace CodeReviewer

/-- JavaScript `String.prototype.split('\n')`: splits into the list of
newline-separated segments, keeping empty segments (`""` splits to `[""]`). -/
def splitOnNl : List Char → List (List Char)
  | [] => [[]]
  | c :: rest =>
    if c = '\n' then [] :: splitOnNl rest
    else
      match splitOnNl rest with
      | [] => [[c]]
      | l :: ls => (c :: l) :: ls

/-- Joining lines with a single newline between them; inverse of `splitOnNl`
on newline-free lines. -/
def joinNl : List (List Char) → List Char
  | [] => []
  | [l] => l
  | l :: ls => l ++ '\n' :: joinNl ls

/-- Whitespace class used by the embedded `\s` regex class and by trimming
(ASCII whitespace; every input in the analysed code paths is ASCII). -/
def isWsp (c : Char) : Bool :=
  c = ' ' || c = '\t' || c = '\n' || c = '\r' || c = Char.ofNat 11 || c = Char.ofNat 12

/-- JavaScript `String.prototype.trim` on ASCII text. -/
def trimWs (l : List Char) : List Char :=
  ((l.dropWhile isWsp).reverse.dropWhile isWsp).reverse

/-- The single-quote character (code point 39). -/
def squote : Char := Char.ofNat 39

/-- Regex word character class `\w` = `[A-Za-z0-9_]`. -/
def isWordChar (c : Char) : Bool :=
  ('a' ≤ c && c ≤ 'z') || ('A' ≤ c && c ≤ 'Z') || ('0' ≤ c && c ≤ '9') || c = '_'

/-- Substring test: JavaScript `regex.test` for a regex that is a literal. -/
def containsSub (needle : List Char) : List Char → Bool
  | [] => needle.isEmpty
  | l@(_ :: rest) => needle.isPrefixOf l || containsSub needle rest

/-- Case folding for the `/i` regex flag (ASCII letters). -/
def lowerStr (l : List Char) : List Char := l.map Char.toLower

/-- Does the regex position-matcher `p` accept at some position of the line
(the semantics of `RegExp.prototype.test`)? -/
def scanAny (p : List Char → Bool) : List Char → Bool
  | [] => p []
  | l@(_ :: rest) => p l || scanAny p rest

/-- Like `scanAny` but the matcher also sees the character immediately before
the current position (`none` at the start of the line), for `\b` boundaries
and look-behind-free window checks. -/
def scanAnyB (p : Option Char → List Char → Bool) : Option Char → List Char → Bool
  | prev, [] => p prev []
  | prev, l@(c :: rest) => p prev l || scanAnyB p (some c) rest

/-! ## Issue records (`CodeIssue` from the shared types) -/

/-- A detected issue; field for field the `CodeIssue` interface of the
source (severity and category are string tags there). -/
structure CodeIssue where
  line : Int
  severity : String
  type : String
  message : String
  suggestion : Option String
  rule : Option String
deriving DecidableEq, Repr

/-! ## Secret-like assignment patterns (`checkCommonIssues`)

Each source pattern has the shape
`<keyword>\s*[=:]\s*["'][^"']+["']` with the `/i` flag; the embedding
matches on the case-folded line.  `[^"']+["']` is deterministic because the
body class and the closing class are disjoint: a match exists iff after the
opening quote there is a non-empty run of non-quote characters followed by
some quote character. -/

/-- Is this character one of the two quote characters of the pattern class? -/
def isQuoteChar (c : Char) : Bool := c = '"' || c = squote

/-- Tail of every secret pattern: `\s*[=:]\s*["'][^"']+["']` at the head of
the list. -/
def secretTail (l : List Char) : Bool :=
  match l.dropWhile isWsp with
  | [] => false
  | c :: rest =>
    (c = '=' || c = ':') &&
    (match rest.dropWhile isWsp with
     | [] => false
     | q :: rest2 =>
       isQuoteChar q &&
       !((rest2.takeWhile (fun d => !isQuoteChar d)).isEmpty) &&
       !((rest2.dropWhile (fun d => !isQuoteChar d)).isEmpty))

/-- Position matcher for `password\s*[=:]\s*["'][^"']+["']` (on the folded
line). -/
def passwordAt (l : List Char) : Bool :=
  ("password".toList).isPrefixOf l && secretTail (l.drop 8)

/-- Position matcher for `api[_-]?key\s*[=:]\s*["'][^"']+["']`: the optional
separator is decided greedily, which is safe because `k` is neither `_`
nor `-`. -/
def apiKeyAt (l : List Char) : Bool :=
  ("api".toList).isPrefixOf l &&
  (let l3 := l.drop 3
   match l3 with
   | c :: rest =>
     if c = '_' || c = '-' then ("key".toList).isPrefixOf rest && secretTail (rest.drop 3)
     else ("key".toList).isPrefixOf l3 && secretTail (l3.drop 3)
   | [] => false)

/-- Position matcher for `secret\s*[=:]\s*["'][^"']+["']`. -/
def secretAt (l : List Char) : Bool :=
  ("secret".toList).isPrefixOf l && secretTail (l.drop 6)

/-- Position matcher for `token\s*[=:]\s*["'][^"']+["']`. -/
def tokenAt (l : List Char) : Bool :=
  ("token".toList).isPrefixOf l && secretTail (l.drop 5)

/-- `RegExp.test` for the first secret pattern. -/
def secretTestPassword (line : List Char) : Bool := scanAny passwordAt (lowerStr line)

/-- `RegExp.test` for the `api[_-]?key` pattern. -/
def secretTestApiKey (line : List Char) : Bool := scanAny apiKeyAt (lowerStr line)

/-- `RegExp.test` for the `secret` pattern. -/
def secretTestSecret (line : List Char) : Bool := scanAny secretAt (lowerStr line)

/-- `RegExp.test` for the `token` pattern. -/
def secretTestToken (line : List Char) : Bool := scanAny tokenAt (lowerStr line)

/-- The `secretPatterns` array of `checkCommonIssues`, in source order. -/
def secretPatterns : List (List Char → Bool) :=
  [secretTestPassword, secretTestApiKey, secretTestSecret, secretTestToken]

/-- `/TODO|FIXME|HACK/i.test(line)`. -/
def todoTest (line : List Char) : Bool :=
  containsSub ("todo".toList) (lowerStr line) ||
  containsSub ("fixme".toList) (lowerStr line) ||
  containsSub ("hack".toList) (lowerStr line)

/-- The issue object pushed for a secret-pattern hit. -/
def credIssue (lineNumber : Int) : CodeIssue :=
  { line := lineNumber, severity := "critical", type := "security",
    message := "Potential hardcoded credential detected",
    suggestion := some "Use environment variables or secure credential storage",
    rule := some "no-hardcoded-credentials" }

/-- The issue object pushed for a TODO/FIXME/HACK hit. -/
def todoIssue (lineNumber : Int) : CodeIssue :=
  { line := lineNumber, severity := "low", type := "quality",
    message := "TODO comment found",
    suggestion := some "Consider creating an issue or completing the task",
    rule := some "no-todo-comments" }

/-- `FileAnalysisService.checkCommonIssues`: one credential issue per
matching secret pattern (the source loops over the patterns and pushes
independently), then the TODO rule. -/
def checkCommonIssues (line : List Char) (lineNumber : Int) : List CodeIssue :=
  ((secretPatterns.filter (fun p => p line)).map (fun _ => credIssue lineNumber)) ++
  (if todoTest line then [todoIssue lineNumber] else [])

/-! ## JavaScript / TypeScript rules (`checkJavaScriptIssues`) -/

/-- Position matcher for `console\.log\s*\(`. -/
def consoleLogAt (l : List Char) : Bool :=
  ("console.log".toList).isPrefixOf l &&
  (match (l.drop 11).dropWhile isWsp with
   | '(' :: _ => true
   | _ => false)

/-- `/console\.log\s*\(/.test(line)`. -/
def consoleLogTest (line : List Char) : Bool := scanAny consoleLogAt line

/-- `/[^=!]==[^=]/.test(line)`: some position holds a character that is not
`=` or `!`, immediately followed by `==` and then a character that is
not `=`. -/
def hasLooseEq : List Char → Bool
  | a :: rest =>
    (match rest with
     | '=' :: '=' :: d :: _ => !(a = '=') && !(a = '!') && !(d = '=')
     | _ => false) || hasLooseEq rest
  | [] => false

/-- Position matcher (with previous character) for `\bvar\s+\w+`. -/
def varDeclAt (prev : Option Char) (l : List Char) : Bool :=
  (match prev with
   | none => true
   | some c => !isWordChar c) &&
  ("var".toList).isPrefixOf l &&
  (let l2 := l.drop 3
   !((l2.takeWhile isWsp).isEmpty) &&
   (match l2.dropWhile isWsp with
    | c :: _ => isWordChar c
    | [] => false))

/-- `/\bvar\s+\w+/.test(line)`. -/
def varDeclTest (line : List Char) : Bool := scanAnyB varDeclAt none line

/-- Position matcher (with previous character) for `\beval\s*\(`. -/
def evalCallAt (prev : Option Char) (l : List Char) : Bool :=
  (match prev with
   | none => true
   | some c => !isWordChar c) &&
  ("eval".toList).isPrefixOf l &&
  (match (l.drop 4).dropWhile isWsp with
   | '(' :: _ => true
   | _ => false)

/-- `/\beval\s*\(/.test(line)`. -/
def evalCallTest (line : List Char) : Bool := scanAnyB evalCallAt none line

/-- The issue object for the `no-console` rule. -/
def consoleIssue (lineNumber : Int) : CodeIssue :=
  { line := lineNumber, severity := "medium", type := "quality",
    message := "Console.log statement found",
    suggestion := some "Remove console.log or use proper logging library",
    rule := some "no-console" }

/-- The issue object for the `strict-equality` rule. -/
def strictEqIssue (lineNumber : Int) : CodeIssue :=
  { line := lineNumber, severity := "medium", type := "quality",
    message := "Use strict equality (===) instead of loose equality (==)",
    suggestion := some "Replace == with ===",
    rule := some "strict-equality" }

/-- The issue object for the `no-var` rule. -/
def varIssue (lineNumber : Int) : CodeIssue :=
  { line := lineNumber, severity := "low", type := "quality",
    message := "Use let or const instead of var",
    suggestion := some "Replace var with let or const",
    rule := some "no-var" }

/-- The issue object for the `no-eval` rule. -/
def evalIssue (lineNumber : Int) : CodeIssue :=
  { line := lineNumber, severity := "high", type := "security",
    message := "eval() usage detected - potential security risk",
    suggestion := some "Avoid using eval(), consider safer alternatives",
    rule := some "no-eval" }

/-- `FileAnalysisService.checkJavaScriptIssues`, rules in source order. -/
def checkJavaScriptIssues (line : List Char) (lineNumber : Int) : List CodeIssue :=
  (if consoleLogTest line then [consoleIssue lineNumber] else []) ++
  (if hasLooseEq line then [strictEqIssue lineNumber] else []) ++
  (if varDeclTest line then [varIssue lineNumber] else []) ++
  (if evalCallTest line then [evalIssue lineNumber] else [])

/-! ## Python rules (`checkPythonIssues`) -/

/-- Position matcher (with previous character) for `\bprint\s*\(`. -/
def printCallAt (prev : Option Char) (l : List Char) : Bool :=
  (match prev with
   | none => true
   | some c => !isWordChar c) &&
  ("print".toList).isPrefixOf l &&
  (match (l.drop 5).dropWhile isWsp with
   | '(' :: _ => true
   | _ => false)

/-- `/\bprint\s*\(/.test(line)`. -/
def printCallTest (line : List Char) : Bool := scanAnyB printCallAt none line

/-- Position matcher for `except\s*:`. -/
def exceptAt (l : List Char) : Bool :=
  ("except".toList).isPrefixOf l &&
  (match (l.drop 6).dropWhile isWsp with
   | ':' :: _ => true
   | _ => false)

/-- `/except\s*:/.test(line)`. -/
def exceptTest (line : List Char) : Bool := scanAny exceptAt line

/-- The issue object for the `no-print` rule. -/
def printIssue (lineNumber : Int) : CodeIssue :=
  { line := lineNumber, severity := "low", type := "quality",
    message := "Print statement found",
    suggestion := some "Use logging instead of print for production code",
    rule := some "no-print" }

/-- The issue object for the `specific-exceptions` rule. -/
def exceptIssue (lineNumber : Int) : CodeIssue :=
  { line := lineNumber, severity := "medium", type := "quality",
    message := "Bare except clause",
    suggestion := some "Catch specific exceptions instead of using bare except",
    rule := some "specific-exceptions" }

/-- `FileAnalysisService.checkPythonIssues`, rules in source order. -/
def checkPythonIssues (line : List Char) (lineNumber : Int) : List CodeIssue :=
  (if printCallTest line then [printIssue lineNumber] else []) ++
  (if exceptTest line then [exceptIssue lineNumber] else [])

/-! ## Per-line dispatch (`checkLineForIssues`) -/

/-- The skip gate of `checkLineForIssues`: blank after trimming, or trimmed
line starting with `//` or `#`. -/
def isCommentOrBlank (line : List Char) : Bool :=
  let trimmedLine := trimWs line
  trimmedLine.isEmpty || (['/', '/'].isPrefixOf trimmedLine) ||
    (['#'].isPrefixOf trimmedLine)

/-- The language `switch` of `checkLineForIssues`. -/
def langIssues (line : List Char) (lineNumber : Int) (language : String) : List CodeIssue :=
  if language == "javascript" || language == "typescript" then
    checkJavaScriptIssues line lineNumber
  else if language == "python" then checkPythonIssues line lineNumber
  else []

/-- `FileAnalysisService.checkLineForIssues`. -/
def checkLineForIssues (line : List Char) (lineNumber : Int) (language : String) :
    List CodeIssue :=
  if isCommentOrBlank line then []
  else checkCommonIssues line lineNumber ++ langIssues line lineNumber language

/-! ## The diff parser inside `performBasicAnalysis`

A hunk header (a line starting with `@@`) resets the running counter from
the `/\+(\d+)/` match; a line starting with `+` increments the counter and
feeds its content (prefix stripped) to the per-line checks; all other lines
are skipped.  The counter lives in `Int` because the source computes
`parseInt(match[1]) - 1` on a JavaScript number. -/

/-- Decimal value of a digit run (the `parseInt` of a `\d+` capture). -/
def digitsVal (ds : List Char) : Nat :=
  ds.foldl (fun acc c => acc * 10 + (c.toNat - 48)) 0

/-- `line.match(/\+(\d+)/)`: the first `+` immediately followed by at least
one digit yields the value of the maximal digit run after it. -/
def findPlusNum : List Char → Option Nat
  | [] => none
  | c :: rest =>
    if c = '+' then
      let ds := rest.takeWhile Char.isDigit
      if ds.isEmpty then findPlusNum rest else some (digitsVal ds)
    else findPlusNum rest

/-- The added-line records (post-change line number, content) produced by the
scanning loop of `performBasicAnalysis`, from a given counter value. -/
def diffAddedLines : List (List Char) → Int → List (Int × List Char)
  | [], _ => []
  | l :: rest, cur =>
    if ['@', '@'].isPrefixOf l then
      match findPlusNum l with
      | some n => diffAddedLines rest ((n : Int) - 1)
      | none => diffAddedLines rest cur
    else if ['+'].isPrefixOf l then
      (cur + 1, l.drop 1) :: diffAddedLines rest (cur + 1)
    else diffAddedLines rest cur

/-- `FileAnalysisService.performBasicAnalysis`: parse the patch, then run the
per-line checks over each emitted record, concatenating the issues in
order. -/
def performBasicAnalysis (patch : String) (language : String) : List CodeIssue :=
  (diffAddedLines (splitOnNl patch.toList) 0).flatMap
    (fun p => checkLineForIssues p.2 p.1 language)

/-! ## Complexity score (`getComplexityScore`) -/

/-- One scan step of the global regex
`/[{([]|if|for|while|function|class/g`: at each position the first matching
alternative is counted and the scan resumes after it (the alternatives are
pairwise non-overlapping at any one position).  Structured with explicit
fuel so the kernel can evaluate it; each step consumes at least one
character, so `fuel = length` is exact. -/
def countOpenFuel : Nat → List Char → Nat
  | 0, _ => 0
  | _, [] => 0
  | fuel + 1, c :: rest =>
    if c = '{' || c = '(' || c = '[' then countOpenFuel fuel rest + 1
    else if ("if".toList).isPrefixOf (c :: rest) then
      countOpenFuel fuel (rest.drop 1) + 1
    else if ("for".toList).isPrefixOf (c :: rest) then
      countOpenFuel fuel (rest.drop 2) + 1
    else if ("while".toList).isPrefixOf (c :: rest) then
      countOpenFuel fuel (rest.drop 4) + 1
    else if ("function".toList).isPrefixOf (c :: rest) then
      countOpenFuel fuel (rest.drop 7) + 1
    else if ("class".toList).isPrefixOf (c :: rest) then
      countOpenFuel fuel (rest.drop 4) + 1
    else countOpenFuel fuel rest

/-- `(content.match(/[{([]|if|for|while|function|class/g) || []).length`. -/
def countOpen (l : List Char) : Nat := countOpenFuel l.length l

/-- `(content.match(/[})\]]/g) || []).length`. -/
def countClose (l : List Char) : Nat :=
  l.countP (fun c => c = '}' || c = ')' || c = ']')

/-- The running scan of `calculateNestingLevel`: over lines starting with
`+`, add the open count of the content and subtract the close count, and
track the maximum value reached. -/
def nestingGo : List (List Char) → Int → Int → Int
  | [], _, maxNesting => maxNesting
  | l :: rest, currentNesting, maxNesting =>
    if ['+'].isPrefixOf l then
      let content := l.drop 1
      let c := currentNesting + (countOpen content : Int) - (countClose content : Int)
      nestingGo rest c (max maxNesting c)
    else nestingGo rest currentNesting maxNesting

/-- `FileAnalysisService.calculateNestingLevel`: the tracked maximum, floored
at 0 (`Math.max(0, maxNesting)`). -/
def calculateNestingLevel (patch : String) : Nat :=
  (nestingGo (splitOnNl patch.toList) 0 0).toNat

/-- Does the line start with `+` (the added-line count of
`getComplexityScore`)? -/
def addedLinePred (l : List Char) : Bool := ['+'].isPrefixOf l

/-- Count of lines starting with `+` in the patch. -/
def addedLineCount (patch : String) : Nat :=
  ((splitOnNl patch.toList).filter addedLinePred).length

/-- `FileAnalysisService.getComplexityScore`:
`Math.min(10, Math.floor(lines / 10) + nestingLevel)`. -/
def getComplexityScore (patch : String) : Nat :=
  min 10 (addedLineCount patch / 10 + calculateNestingLevel patch)

/-! ## Scope decision (`shouldReview`) and language detection -/

/-- The basename of a POSIX path: the part after the last `/`
(`path.basename` for the inputs of this program, which never end in a
slash). -/
def lastComponent (l : List Char) : List Char :=
  ((l.reverse).takeWhile (fun c => !(c = '/'))).reverse

/-- Node's `path.extname` on ordinary paths: from the last `.` of the
basename to the end, empty when the basename has no dot or only a leading
dot. -/
def extnameOf (filename : List Char) : List Char :=
  let b := lastComponent filename
  let pre := (b.reverse).takeWhile (fun c => !(c = '.'))
  if pre.length = b.length then []
  else if b.length - pre.length - 1 = 0 then []
  else '.' :: pre.reverse

/-- The `SUPPORTED_EXTENSIONS` set. -/
def supportedExtensions : List (List Char) :=
  [".js".toList, ".ts".toList, ".jsx".toList, ".tsx".toList, ".py".toList,
   ".java".toList, ".go".toList, ".rs".toList, ".php".toList, ".rb".toList,
   ".swift".toList, ".kt".toList, ".scala".toList, ".cpp".toList, ".c".toList,
   ".cs".toList, ".dart".toList]

/-- The `BINARY_EXTENSIONS` set. -/
def binaryExtensions : List (List Char) :=
  [".png".toList, ".jpg".toList, ".jpeg".toList, ".gif".toList, ".svg".toList,
   ".ico".toList, ".pdf".toList, ".zip".toList, ".tar".toList, ".gz".toList,
   ".exe".toList, ".dll".toList, ".so".toList, ".dylib".toList]

/-- Existence test for `/packages\/.*\/lib\//`: a `packages/` occurrence
followed (with no intervening newline, the only character `.` rejects) by a
`/lib/` occurrence. -/
def midThenLib : List Char → Bool
  | [] => false
  | l@(c :: rest) => ("/lib/".toList).isPrefixOf l || (!(c = '\n') && midThenLib rest)

/-- Position matcher for `packages\/.*\/lib\//`. -/
def packagesLibAt (l : List Char) : Bool :=
  ("packages/".toList).isPrefixOf l && midThenLib (l.drop 9)

/-- `IGNORE_PATTERNS.some(pattern => pattern.test(filename))`, patterns in
source order (all but the last are literal substrings). -/
def ignoreMatches (f : List Char) : Bool :=
  containsSub ("node_modules".toList) f ||
  containsSub (".min.".toList) f ||
  containsSub (".bundle.".toList) f ||
  containsSub (".generated.".toList) f ||
  containsSub ("dist/".toList) f ||
  containsSub ("build/".toList) f ||
  containsSub ("coverage/".toList) f ||
  containsSub (".git/".toList) f ||
  containsSub ("vendor/".toList) f ||
  scanAny packagesLibAt f

/-- The `configFiles` list of `isConfigFile`. -/
def configFiles : List (List Char) :=
  ["Dockerfile".toList, "Makefile".toList, "package.json".toList,
   "tsconfig.json".toList, "webpack.config.js".toList, ".eslintrc".toList,
   ".babelrc".toList, "docker-compose.yml".toList]

/-- `FileAnalysisService.isConfigFile`. -/
def isConfigFile (filename : List Char) : Bool :=
  let basename := lastComponent filename
  configFiles.contains basename || ['.'].isPrefixOf basename

/-- `FileAnalysisService.shouldReview`. -/
def shouldReview (filename status : String) : Bool :=
  if status == "removed" then false
  else
    let ext := lowerStr (extnameOf filename.toList)
    if binaryExtensions.contains ext then false
    else if ignoreMatches filename.toList then false
    else if !(supportedExtensions.contains ext) then
      ext.isEmpty || isConfigFile filename.toList
    else true

/-- The `languageMap` of `getLanguage`, in source order. -/
def languageMap : List (List Char × String) :=
  [(".js".toList, "javascript"), (".jsx".toList, "javascript"),
   (".ts".toList, "typescript"), (".tsx".toList, "typescript"),
   (".py".toList, "python"), (".java".toList, "java"), (".go".toList, "go"),
   (".rs".toList, "rust"), (".php".toList, "php"), (".rb".toList, "ruby"),
   (".swift".toList, "swift"), (".kt".toList, "kotlin"),
   (".scala".toList, "scala"), (".cpp".toList, "cpp"), (".c".toList, "c"),
   (".cs".toList, "csharp"), (".dart".toList, "dart")]

/-- `FileAnalysisService.getLanguage`. -/
def getLanguage (filename : String) : String :=
  let ext := lowerStr (extnameOf filename.toList)
  ((languageMap.find? (fun p => p.1 == ext)).map (fun p => p.2)).getD "unknown"

/-! ## Lemmas about line splitting -/

theorem splitOnNl_ne_nil (l : List Char) : splitOnNl l ≠ [] := by
  cases l with
  | nil => simp [splitOnNl]
  | cons c rest =>
    simp only [splitOnNl]
    split
    · simp
    · cases h : splitOnNl rest <;> simp

theorem splitOnNl_no_nl (l : List Char) (h : ∀ c ∈ l, c ≠ '\n') :
    splitOnNl l = [l] := by
  induction l with
  | nil => rfl
  | cons c rest ih =>
    have hc : ¬ c = '\n' := h c (List.mem_cons_self c rest)
    have hr := ih (fun d hd => h d (List.mem_cons_of_mem c hd))
    simp only [splitOnNl, hc, if_false, hr]

theorem splitOnNl_append_nl (l rest : List Char) (h : ∀ c ∈ l, c ≠ '\n') :
    splitOnNl (l ++ '\n' :: rest) = l :: splitOnNl rest := by
  induction l with
  | nil => simp [splitOnNl]
  | cons c l ih =>
    have hc : ¬ c = '\n' := h c (List.mem_cons_self c l)
    have hr := ih (fun d hd => h d (List.mem_cons_of_mem c hd))
    simp only [List.cons_append, splitOnNl, hc, if_false, List.append_eq, hr]

theorem splitOnNl_joinNl (ls : List (List Char)) (hne : ls ≠ [])
    (h : ∀ l ∈ ls, ∀ c ∈ l, c ≠ '\n') : splitOnNl (joinNl ls) = ls := by
  induction ls with
  | nil => exact absurd rfl hne
  | cons l ls ih =>
    cases ls with
    | nil =>
      simp only [joinNl]
      exact splitOnNl_no_nl l (h l (List.mem_cons_self l []))
    | cons l2 ls2 =>
      have hj : joinNl (l :: l2 :: ls2) = l ++ '\n' :: joinNl (l2 :: ls2) := rfl
      rw [hj, splitOnNl_append_nl l _ (h l (List.mem_cons_self l _)),
        ih (by simp) (fun x hx => h x (List.mem_cons_of_mem l hx))]

/-! ## Lemmas about the diff parser -/

/-- The records claimed by the specification for a run of `k` added lines:
consecutive line numbers from `n`, contents in input order. -/
def numberFrom (n : Int) : List (List Char) → List (Int × List Char)
  | [] => []
  | c :: cs => (n, c) :: numberFrom (n + 1) cs

theorem diffAddedLines_all_plus (cs : List (List Char)) : ∀ m : Int,
    diffAddedLines (cs.map (fun c => '+' :: c)) m = numberFrom (m + 1) cs := by
  induction cs with
  | nil => intro m; rfl
  | cons c cs ih =>
    intro m
    have h1 : (['@', '@'].isPrefixOf ('+' :: c)) = false := rfl
    have h2 : (['+'].isPrefixOf ('+' :: c)) = true := by
      simp [List.isPrefixOf]
    simp only [List.map_cons, diffAddedLines, h1, Bool.false_eq_true, if_false,
      h2, if_true, List.drop_one, List.tail_cons, ih, numberFrom]

/-- C3: For a patch whose lines are a single hunk header declaring new-file
start line `N` followed by `k` added lines (no context lines), the parser
emits exactly the `k` records `(N, c₀), (N+1, c₁), …`, contents in input
order with the `+` prefix stripped. -/
theorem c3_single_hunk_added_lines (patch header : List Char)
    (contents : List (List Char)) (N : Nat)
    (hpatch : patch = joinNl (header :: contents.map (fun c => '+' :: c)))
    (hhdr : ['@', '@'].isPrefixOf header = true)
    (hN : findPlusNum header = some N)
    (hnlh : ∀ c ∈ header, c ≠ '\n')
    (hnlc : ∀ l ∈ contents, ∀ c ∈ l, c ≠ '\n') :
    diffAddedLines (splitOnNl patch) 0 = numberFrom (N : Int) contents := by
  subst hpatch
  rw [splitOnNl_joinNl _ (by simp) ?hnl]
  case hnl =>
    intro l hl
    rcases List.mem_cons.mp hl with h | h
    · exact h ▸ hnlh
    · rcases List.mem_map.mp h with ⟨c, hc, rfl⟩
      intro d hd
      rcases List.mem_cons.mp hd with h' | h'
      · simp [h']
      · exact hnlc c hc d h'
  simp only [diffAddedLines, hhdr, if_true, hN, diffAddedLines_all_plus]
  congr 1
  omega

/-- C4: a line starting with `@@` whose `+<N>` token does not match never
raises an error: it emits no record and leaves the running counter for the
following lines exactly as it was (the parser is a total function, so
totality itself is the absence of a hard failure). -/
theorem c4_malformed_hunk_header_silent (header : List Char)
    (rest : List (List Char)) (cur : Int)
    (hhdr : ['@', '@'].isPrefixOf header = true)
    (hbad : findPlusNum header = none) :
    diffAddedLines (header :: rest) cur = diffAddedLines rest cur := by
  simp only [diffAddedLines, hhdr, if_true, hbad]

/-- Witness for C3 at a concrete patch: header `@@ -1,2 +5,3 @@`, two added
lines. -/
theorem c3_witness :
    diffAddedLines
      (splitOnNl (joinNl ["@@ -1,2 +5,3 @@".toList, "+ab".toList, "+cd".toList])) 0 =
      numberFrom 5 ["ab".toList, "cd".toList] := by
  exact c3_single_hunk_added_lines _ ("@@ -1,2 +5,3 @@".toList)
    ["ab".toList, "cd".toList] 5 rfl (by decide) (by decide) (by decide) (by decide)

/-- Witness for C4 at a concrete malformed header (`@@ -1,2 @@` has no
`+<N>` token): the counter stays 3 for the following lines. -/
theorem c4_witness :
    diffAddedLines ["@@ -1,2 @@".toList, "+x".toList] 3 =
      diffAddedLines ["+x".toList] 3 := by
  exact c4_malformed_hunk_header_silent _ _ 3 (by decide) (by decide)

/-! ## Complexity score -/

/-- The concrete 25-added-line patch of the specification scenario: 25 lines
`+a`, no brackets or nesting keywords. -/
def patch25 : String :=
  "+a\n+a\n+a\n+a\n+a\n+a\n+a\n+a\n+a\n+a\n+a\n+a\n+a\n+a\n+a\n+a\n+a\n+a\n+a\n+a\n+a\n+a\n+a\n+a\n+a"

set_option maxRecDepth 8192 in
/-- C5: the complexity score is exactly
`min 10 (floor(addedLines / 10) + maxNestingDepth)` with the components as
computed by the source, it always lies in `[0, 10]`, and the 25-added-line
patch with no nesting scores 2. -/
theorem c5_complexity_score :
    (∀ patch : String,
      getComplexityScore patch =
        min 10 (addedLineCount patch / 10 + calculateNestingLevel patch)) ∧
    (∀ patch : String, getComplexityScore patch ≤ 10) ∧
    getComplexityScore patch25 = 2 := by
  refine ⟨fun patch => rfl, fun patch => Nat.min_le_left _ _, by decide⟩

/-! ## Hardcoded-credential detection (C6) -/

/-- The added line of the specification scenario. -/
def pwLine : List Char := "const password = \"abc123\"".toList

/-- Is an issue a hardcoded-credential issue? -/
def credIssueP (i : CodeIssue) : Bool := i.rule == some "no-hardcoded-credentials"

set_option maxRecDepth 8192 in
/-- C6: the line `const password = "abc123"` yields exactly one issue under
any language tag and any line number — the critical/security
`no-hardcoded-credentials` issue — and in general the number of credential
issues equals the number of secret patterns matching the line (each fires
independently, so several patterns yield several issues). -/
theorem c6_hardcoded_credential_issue :
    (∀ (language : String) (n : Int),
      checkLineForIssues pwLine n language = [credIssue n]) ∧
    (∀ (line : List Char) (n : Int),
      (checkCommonIssues line n).countP credIssueP =
        (secretPatterns.filter (fun p => p line)).length) := by
  constructor
  · intro language n
    have hg : isCommentOrBlank pwLine = false := by decide
    have hc : checkCommonIssues pwLine n = [credIssue n] := rfl
    have hjs : checkJavaScriptIssues pwLine n = [] := rfl
    have hpy : checkPythonIssues pwLine n = [] := rfl
    simp only [checkLineForIssues, hg, Bool.false_eq_true, if_false, hc, langIssues]
    cases h1 : (language == "javascript" || language == "typescript") with
    | true => simp [hjs]
    | false =>
      cases h2 : (language == "python") with
      | true => simp [hpy]
      | false => simp
  · intro line n
    unfold checkCommonIssues
    rw [List.countP_append, List.countP_map]
    have h1 : (List.countP (credIssueP ∘ fun _ => credIssue n)
        (secretPatterns.filter (fun p => p line))) =
        (secretPatterns.filter (fun p => p line)).length := by
      refine List.countP_eq_length.mpr (fun a _ => ?_)
      simp [credIssueP, credIssue]
    rw [h1]
    have h2 : (if todoTest line then [todoIssue n] else []).countP credIssueP = 0 := by
      cases h : todoTest line <;> simp [h, credIssueP, todoIssue, List.countP_cons]
    rw [h2, Nat.add_zero]

/-! ## Loose-equality rule (C7)

The source rule is `/[^=!]==[^=]/`, which requires a character before and a
character after the `==`; the specification claim quantifies over every line
containing a `==` that is not part of `===`/`!==`, which also covers a `==`
at the start or end of the line.  The two disagree exactly at the line
boundaries. -/

/-- Modelled from the specification claim words (not from the source): the
line contains a `==` that is not part of `===` or `!==`; scanning with the
previous character, a hit is two `=` whose predecessor (if any) is neither
`=` nor `!` and whose successor (if any) is not `=`. -/
def containsLooseEqSpecAux : Option Char → List Char → Bool
  | prev, '=' :: '=' :: rest =>
    ((match prev with
      | none => true
      | some c => !(c = '=') && !(c = '!')) &&
     (match rest with
      | [] => true
      | d :: _ => !(d = '='))) ||
    containsLooseEqSpecAux (some '=') ('=' :: rest)
  | _prev, c :: rest => containsLooseEqSpecAux (some c) rest
  | _, [] => false

/-- Modelled from the specification claim words: see
`containsLooseEqSpecAux`. -/
def containsLooseEqSpec (line : List Char) : Bool := containsLooseEqSpecAux none line

/-- C7 counterexample: the line `x ==` (JavaScript, not blank, not a
comment) contains a `==` that is not part of `===` or `!==`, yet the
detector emits no issue at all, because the source regex `[^=!]==[^=]`
demands a character after the `==`. -/
theorem c7_counterexample :
    containsLooseEqSpec ("x ==".toList) = true ∧
    isCommentOrBlank ("x ==".toList) = false ∧
    checkLineForIssues ("x ==".toList) 1 "javascript" = [] := by
  decide

theorem hasLooseEq_cons (c : Char) (l : List Char) (h : hasLooseEq l = true) :
    hasLooseEq (c :: l) = true := by
  simp [hasLooseEq, h]

theorem hasLooseEq_window (pre post : List Char) (a b : Char)
    (ha1 : a ≠ '=') (ha2 : a ≠ '!') (hb : b ≠ '=') :
    hasLooseEq (pre ++ a :: '=' :: '=' :: b :: post) = true := by
  induction pre with
  | nil => simp [hasLooseEq, ha1, ha2, hb]
  | cons c cs ih => exact List.cons_append c cs _ ▸ hasLooseEq_cons c _ ih

/-- C7 amended: for every added line under a javascript or typescript tag
that is not blank and not comment-only, if the line contains a `==`
immediately preceded by some character other than `=`/`!` and immediately
followed by some character other than `=`, the detector emits the
medium/quality `strict-equality` issue.  (A `==` at the very start or end
of the line does not fire — see `c7_counterexample`.) -/
theorem c7_strict_equality_amended (line : List Char) (n : Int) (language : String)
    (pre post : List Char) (a b : Char)
    (hlang : language = "javascript" ∨ language = "typescript")
    (hgate : isCommentOrBlank line = false)
    (hline : line = pre ++ a :: '=' :: '=' :: b :: post)
    (ha1 : a ≠ '=') (ha2 : a ≠ '!') (hb : b ≠ '=') :
    strictEqIssue n ∈ checkLineForIssues line n language := by
  have hle : hasLooseEq line = true :=
    hline ▸ hasLooseEq_window pre post a b ha1 ha2 hb
  have hjs : strictEqIssue n ∈ checkJavaScriptIssues line n := by
    unfold checkJavaScriptIssues
    rw [hle]
    simp
  unfold checkLineForIssues
  rw [hgate]
  simp only [Bool.false_eq_true, if_false]
  refine List.mem_append_right _ ?_
  unfold langIssues
  rcases hlang with h | h <;> simp [h, hjs]

/-- Witness for the amended C7 on the concrete line `if (a == b)`. -/
theorem c7_witness :
    strictEqIssue 3 ∈ checkLineForIssues ("if (a == b)".toList) 3 "javascript" := by
  exact c7_strict_equality_amended ("if (a == b)".toList) 3 "javascript"
    ("if (a".toList) ("b)".toList) ' ' ' ' (Or.inl rfl) (by decide) (by decide)
    (by decide) (by decide) (by decide)

/-! ## Scope decision (C8) -/

/-- C8: removed files are never reviewed, whatever the filename;
`vendor/lib.js` is rejected by the path deny-list; `image.png` is rejected
by the binary-extension set; `Dockerfile` is reviewed because it is a
recognized config filename and has no extension. -/
theorem c8_should_review_scope :
    (∀ filename : String, shouldReview filename "removed" = false) ∧
    shouldReview "vendor/lib.js" "modified" = false ∧
    ignoreMatches ("vendor/lib.js".toList) = true ∧
    shouldReview "image.png" "modified" = false ∧
    binaryExtensions.contains (lowerStr (extnameOf ("image.png".toList))) = true ∧
    shouldReview "Dockerfile" "added" = true ∧
    configFiles.contains (lastComponent ("Dockerfile".toList)) = true ∧
    extnameOf ("Dockerfile".toList) = [] := by
  refine ⟨fun filename => rfl, ?_, ?_, ?_, ?_, ?_, ?_, ?_⟩ <;> decide

/-! ## Changed-file analysis (`analyzeFile`) -/

/-- The fields of a changed-file descriptor used by the analysed code paths
(`GitHubFile`); `patch` is optional, as the hosting platform omits it for
binary files. -/
structure GitHubFile where
  filename : String
  status : String
  additions : Nat
  deletions : Nat
  patch : Option String
deriving DecidableEq, Repr

/-- The analysis record built by `analyzeFile` (the `FileAnalysis` shape). -/
structure FileAnalysis where
  filename : String
  language : String
  additions : Nat
  deletions : Nat
  patch : String
  shouldReview : Bool
  issues : List CodeIssue
deriving DecidableEq, Repr

/-- JavaScript truthiness of the optional patch (`file.patch`): present and
not the empty string. -/
def patchTruthy : Option String → Bool
  | none => false
  | some p => !(p == "")

/-- `FileAnalysisService.analyzeFile`: issues are computed only when the
file is in scope and a (truthy) patch is present. -/
def analyzeFile (file : GitHubFile) : FileAnalysis :=
  let sr := shouldReview file.filename file.status
  let language := getLanguage file.filename
  { filename := file.filename, language := language, additions := file.additions,
    deletions := file.deletions, patch := file.patch.getD "", shouldReview := sr,
    issues :=
      if sr && patchTruthy file.patch then
        performBasicAnalysis (file.patch.getD "") language
      else [] }

/-! ## Persistent data model

The relational rows touched by the webhook handlers.  Timestamps are
abstract instants (`Nat`); row identity for `Review` is the unique
`(prNumber, repoFullName)` pair plus a surrogate `id` that the derived
`FileChange`/`ReviewComment` rows reference. -/

/-- The loosely-typed `reviewData` metadata blob (the `ReviewData` interface;
every field optional because updates store partial objects, and the whole
blob is replaced on update as a JSON column). -/
structure ReviewData where
  pr_title : Option String := none
  pr_author : Option String := none
  pr_url : Option String := none
  head_sha : Option String := none
  base_sha : Option String := none
  changed_files : Option Nat := none
  additions : Option Nat := none
  deletions : Option Nat := none
  files_found : Option Nat := none
  files_analyzed : Option Nat := none
  files_to_review : Option Nat := none
  step : Option String := none
  progress : Option Nat := none
  error : Option String := none
deriving DecidableEq, Repr

/-- A `Review` row. -/
structure ReviewRow where
  id : Nat
  prNumber : Nat
  repoFullName : String
  installationId : Nat
  status : String
  reviewData : ReviewData
  createdAt : Nat
  completedAt : Option Nat
deriving DecidableEq, Repr

/-- A `FileChange` row (owned by the review `reviewId`). -/
structure FileChangeRow where
  reviewId : Nat
  filename : String
  status : String
  language : String
  additions : Nat
  deletions : Nat
  patch : String
  analyzed : Bool
  shouldReview : Bool
deriving DecidableEq, Repr

/-- A `ReviewComment` row (owned by the review `reviewId`). -/
structure ReviewCommentRow where
  reviewId : Nat
  fileName : String
  lineNumber : Int
  severity : String
  type : String
  message : String
  suggestion : Option String
  rule : Option String
deriving DecidableEq, Repr

/-- The store state: the three tables touched by the pull-request handlers,
plus the surrogate-id source for `Review` creation. -/
structure DB where
  reviews : List ReviewRow
  fileChanges : List FileChangeRow
  reviewComments : List ReviewCommentRow
  nextReviewId : Nat
deriving DecidableEq, Repr

/-- The store with no rows. -/
def emptyDB : DB := { reviews := [], fileChanges := [], reviewComments := [], nextReviewId := 0 }

/-- Does row `r` match the unique `(prNumber, repoFullName)` key? -/
def keyB (prNumber : Nat) (repoFullName : String) (r : ReviewRow) : Bool :=
  r.prNumber == prNumber && r.repoFullName == repoFullName

/-- The identity-relevant projection of a review row: surrogate id and
unique key.  Every lifecycle write preserves it. -/
def rkey (r : ReviewRow) : Nat × Nat × String := (r.id, r.prNumber, r.repoFullName)

/-- Two rkey projections clash when they share the surrogate id or the
unique `(prNumber, repoFullName)` pair. -/
def keyClash (a b : Nat × Nat × String) : Bool :=
  a.1 == b.1 || (a.2.1 == b.2.1 && a.2.2 == b.2.2)

/-- Pairwise absence of key clashes (the store's unique constraints). -/
def keysOk : List (Nat × Nat × String) → Bool
  | [] => true
  | k :: rest => rest.all (fun x => !keyClash k x) && keysOk rest

/-- Store well-formedness: unique constraints hold and every surrogate id is
below the id source. -/
def DB.wfB (db : DB) : Bool :=
  keysOk (db.reviews.map rkey) &&
    (db.reviews.map rkey).all (fun k => k.1 < db.nextReviewId)

/-! ## Webhook handler operations (`WebhookHandlers`) -/

/-- The fields of the pull-request payload used by `queueReview`. -/
structure PullRequestInfo where
  number : Nat
  title : String
  authorLogin : String
  htmlUrl : String
  headSha : String
  baseSha : String
  changedFiles : Option Nat
  additions : Option Nat
  deletions : Option Nat
deriving DecidableEq, Repr

/-- The `reviewData` object built at the top of `queueReview` (`step:
'queued', progress: 0`; missing numeric payload fields default to 0 via
`|| 0`). -/
def initialReviewData (pr : PullRequestInfo) : ReviewData :=
  { pr_title := some pr.title, pr_author := some pr.authorLogin,
    pr_url := some pr.htmlUrl, head_sha := some pr.headSha,
    base_sha := some pr.baseSha, changed_files := some (pr.changedFiles.getD 0),
    additions := some (pr.additions.getD 0), deletions := some (pr.deletions.getD 0),
    step := some "queued", progress := some 0 }

/-- The `update` clause of the review upsert: status `pending`, new metadata,
`createdAt` reset to now, `completedAt` cleared.  `installationId` is not in
the update clause and keeps its prior value. -/
def pendRow (rd : ReviewData) (now : Nat) (r : ReviewRow) : ReviewRow :=
  { r with status := "pending", reviewData := rd, createdAt := now, completedAt := none }

/-- The upsert walk over the review table: update the (unique) row matching
the key if present, reporting the updated row. -/
def upsertGo (prNumber : Nat) (repoFullName : String) (rd : ReviewData) (now : Nat) :
    List ReviewRow → Option ReviewRow × List ReviewRow
  | [] => (none, [])
  | r :: rest =>
    if keyB prNumber repoFullName r then
      (some (pendRow rd now r), pendRow rd now r :: rest)
    else
      let p := upsertGo prNumber repoFullName rd now rest
      (p.1, r :: p.2)

/-- `tx.review.upsert` keyed on `prNumber_repoFullName`: update the matching
row, or create a fresh row with the next surrogate id. -/
def reviewUpsert (db : DB) (prNumber : Nat) (repoFullName : String)
    (installationId : Nat) (rd : ReviewData) (now : Nat) : DB × ReviewRow :=
  match upsertGo prNumber repoFullName rd now db.reviews with
  | (some r, rs) => ({ db with reviews := rs }, r)
  | (none, _) =>
    let r : ReviewRow :=
      { id := db.nextReviewId, prNumber := prNumber, repoFullName := repoFullName,
        installationId := installationId, status := "pending", reviewData := rd,
        createdAt := now, completedAt := none }
    ({ db with reviews := db.reviews ++ [r], nextReviewId := db.nextReviewId + 1 }, r)

/-- The `prisma.$transaction` of `queueReview`: upsert the review to
`pending`, then delete every `ReviewComment` and `FileChange` row of that
review — one atomic step (the whole function is the transaction), returning
the review id. -/
def queueReviewTxn (db : DB) (prNumber : Nat) (repoFullName : String)
    (installationId : Nat) (rd : ReviewData) (now : Nat) : DB × Nat :=
  let res := reviewUpsert db prNumber repoFullName installationId rd now
  let rid := res.2.id
  ({ res.1 with
      reviewComments := res.1.reviewComments.filter (fun c => !(c.reviewId == rid)),
      fileChanges := res.1.fileChanges.filter (fun c => !(c.reviewId == rid)) },
   rid)

/-- The row update of `updateReviewStatus`: status and metadata blob always;
`completedAt` only when the new status is `completed`
(`...(status === 'completed' && { completedAt: new Date() })`). -/
def applyStatusUpdate (status : String) (rd : ReviewData) (now : Nat)
    (r : ReviewRow) : ReviewRow :=
  { r with
    status := status,
    reviewData := rd,
    completedAt := if status == "completed" then some now else r.completedAt }

/-- `updateReviewStatus` when called with a `reviewId`
(`prisma.review.update({ where: { id } })`). -/
def updateReviewStatusById (db : DB) (reviewId : Nat) (status : String)
    (rd : ReviewData) (now : Nat) : DB :=
  { db with reviews := db.reviews.map (fun r =>
      if r.id == reviewId then applyStatusUpdate status rd now r else r) }

/-- `updateReviewStatus` when called with `(prNumber, repoFullName)`
(`prisma.review.updateMany`). -/
def updateReviewStatusByKey (db : DB) (prNumber : Nat) (repoFullName : String)
    (status : String) (rd : ReviewData) (now : Nat) : DB :=
  { db with reviews := db.reviews.map (fun r =>
      if keyB prNumber repoFullName r then applyStatusUpdate status rd now r else r) }

/-- `cleanupReview` (the "PR closed" path): `updateMany` setting only
`status: 'cancelled'` on every row matching the key, whatever its current
state. -/
def cleanupReview (db : DB) (prNumber : Nat) (repoFullName : String) : DB :=
  { db with reviews := db.reviews.map (fun r =>
      if keyB prNumber repoFullName r then { r with status := "cancelled" } else r) }

/-- The `FileChange` row created for one analysed file inside the
per-file loop of `startReviewProcess`. -/
def fileChangeRowOf (reviewId : Nat) (file : GitHubFile) : FileChangeRow :=
  let analysis := analyzeFile file
  { reviewId := reviewId, filename := analysis.filename, status := file.status,
    language := analysis.language, additions := analysis.additions,
    deletions := analysis.deletions, patch := analysis.patch, analyzed := true,
    shouldReview := analysis.shouldReview }

/-- The `ReviewComment` rows created (`createMany`) for one analysed file. -/
def commentRowsOf (reviewId : Nat) (file : GitHubFile) : List ReviewCommentRow :=
  (analyzeFile file).issues.map (fun issue =>
    { reviewId := reviewId, fileName := (analyzeFile file).filename,
      lineNumber := issue.line, severity := issue.severity, type := issue.type,
      message := issue.message, suggestion := issue.suggestion, rule := issue.rule })

/-- The per-file loop of `startReviewProcess`: persist the file-change row,
the comment rows when any issues were found, and a best-effort progress
write after each file. -/
def processFiles (db : DB) (reviewId : Nat) : List GitHubFile → Nat → Nat → Nat → DB
  | [], _, _, _ => db
  | file :: rest, total, analyzedCount, now =>
    let comments := commentRowsOf reviewId file
    let db2 : DB :=
      { db with
        fileChanges := db.fileChanges ++ [fileChangeRowOf reviewId file],
        reviewComments :=
          if comments.isEmpty then db.reviewComments
          else db.reviewComments ++ comments }
    let done := analyzedCount + 1
    let progress := 30 + done * 40 / total
    let db3 := updateReviewStatusById db2 reviewId "in_progress"
      { step := some "analyzing_files", progress := some progress,
        files_analyzed := some done } now
    processFiles db3 reviewId rest total done now

/-- The runtime error message of the final progress write of
`startReviewProcess`: the source evaluates
`fileAnalysisService.shouldReviewFile(...)`, but `FileAnalysisService`
defines no method of that name (its method is `shouldReview`), so the
property access yields `undefined` and the call throws this `TypeError`,
which the surrounding catch turns into a `failed` status.  When the file
list is empty the filter callback is never invoked and no error occurs. -/
def missingMethodError : String := "fileAnalysisService.shouldReviewFile is not a function"

/-- `startReviewProcess`: progress to `in_progress`/`fetching_files`, load
the review (failing if absent), consume the fetch collaborator's result
(`Except` models its success or thrown error), analyse each file, then
attempt the `ready_for_ai_review` progress write — whose argument evaluation
throws a `TypeError` for a non-empty file list (see `missingMethodError`);
any caught error moves the review to `failed` with the message recorded in
the metadata blob. -/
def startReviewProcess (db : DB) (reviewId : Nat)
    (fetchResult : Except String (List GitHubFile)) (now : Nat) : DB :=
  let db1 := updateReviewStatusById db reviewId "in_progress"
    { step := some "fetching_files", progress := some 10 } now
  match db1.reviews.find? (fun r => r.id == reviewId) with
  | none =>
    updateReviewStatusById db1 reviewId "failed"
      { error := some ("Review " ++ toString reviewId ++ " not found"),
        step := some "failed" } now
  | some _ =>
    match fetchResult with
    | Except.error e =>
      updateReviewStatusById db1 reviewId "failed"
        { error := some e, step := some "failed" } now
    | Except.ok files =>
      let db2 := updateReviewStatusById db1 reviewId "in_progress"
        { step := some "analyzing_files", progress := some 30,
          files_found := some files.length } now
      let db3 := processFiles db2 reviewId files files.length 0 now
      if files.isEmpty then
        updateReviewStatusById db3 reviewId "in_progress"
          { step := some "ready_for_ai_review", progress := some 70,
            files_analyzed := some 0, files_to_review := some 0 } now
      else
        updateReviewStatusById db3 reviewId "failed"
          { error := some missingMethodError, step := some "failed" } now

/-- `queueReview` for an opened/synchronize/reopened event: the atomic
upsert-and-clear transaction, then the fetch/analysis pipeline. -/
def queueReview (db : DB) (pr : PullRequestInfo) (repoFullName : String)
    (installationId : Nat) (fetchResult : Except String (List GitHubFile))
    (now : Nat) : DB :=
  let res := queueReviewTxn db pr.number repoFullName installationId
    (initialReviewData pr) now
  startReviewProcess res.1 res.2 fetchResult now

/-- The files delivered by a fetch result (none when the fetch threw). -/
def fetchFiles : Except String (List GitHubFile) → List GitHubFile
  | Except.ok files => files
  | Except.error _ => []

/-! ## The pull-request pipeline scenario (C2)

The specification scenario: an "opened" event for PR #12 in
`acme/widgets`, with `a.js` (containing a debug-print call) and `b.png`
(a binary file with no patch). -/

/-- The pull-request payload of the scenario. -/
def prEx12 : PullRequestInfo :=
  { number := 12, title := "Add widget", authorLogin := "alice", htmlUrl := "u",
    headSha := "h1", baseSha := "h2", changedFiles := some 2,
    additions := some 2, deletions := some 0 }

/-- The changed file `a.js` with a single-hunk patch adding a
`console.log` call. -/
def fileAJs : GitHubFile :=
  { filename := "a.js", status := "modified", additions := 2, deletions := 0,
    patch := some "@@ -0,0 +1,2 @@\n+console.log(2)\n+const y = 1" }

/-- The changed binary file `b.png` (no patch). -/
def fileBPng : GitHubFile :=
  { filename := "b.png", status := "modified", additions := 0, deletions := 0,
    patch := none }

set_option maxRecDepth 16384 in
/-- C2: found code bug.  In the specification scenario the fetch and every
per-file analysis complete without error, yet the review does not end
`completed`: the final progress write evaluates
`fileAnalysisService.shouldReviewFile`, a method that does not exist on the
service (its method is `shouldReview`), so a `TypeError` is thrown and
caught and the review ends `failed` with that message in its metadata —
and no path of the pipeline ever writes `completed`.  The failure half of
the claim does hold: a fetch error ends `failed` with the thrown message
recorded. -/
theorem c2_pipeline_final_status :
    ((queueReview emptyDB prEx12 "acme/widgets" 77
        (Except.ok [fileAJs, fileBPng]) 100).reviews.map
          (fun r => (r.status, r.reviewData.error)) =
        [("failed", some missingMethodError)]) ∧
    (∀ r ∈ (queueReview emptyDB prEx12 "acme/widgets" 77
        (Except.ok [fileAJs, fileBPng]) 100).reviews, ¬ r.status = "completed") ∧
    ((queueReview emptyDB prEx12 "acme/widgets" 77
        (Except.ok [fileAJs, fileBPng]) 100).fileChanges.map
          (fun c => (c.filename, c.shouldReview)) =
        [("a.js", true), ("b.png", false)]) ∧
    ((queueReview emptyDB prEx12 "acme/widgets" 77
        (Except.ok [fileAJs, fileBPng]) 100).reviewComments.map
          (fun c => (c.fileName, c.lineNumber, c.rule)) =
        [("a.js", 1, some "no-console")]) ∧
    ((queueReview emptyDB prEx12 "acme/widgets" 77
        (Except.error "Bad credentials") 100).reviews.map
          (fun r => (r.status, r.reviewData.error)) =
        [("failed", some "Bad credentials")]) := by
  decide

/-! ## Frame properties of status writes (C9, C10) -/

theorem keyB_eq_true_iff (prNumber : Nat) (repoFullName : String) (r : ReviewRow) :
    keyB prNumber repoFullName r = true ↔
      r.prNumber = prNumber ∧ r.repoFullName = repoFullName := by
  simp [keyB]

theorem keyB_eq_false_of_not (prNumber : Nat) (repoFullName : String) (r : ReviewRow)
    (hm : ¬(r.prNumber = prNumber ∧ r.repoFullName = repoFullName)) :
    keyB prNumber repoFullName r = false := by
  cases h' : keyB prNumber repoFullName r
  · rfl
  · exact absurd ((keyB_eq_true_iff prNumber repoFullName r).mp h') hm

/-- C9: on a "PR closed" event every review row matching
`(prNumber, repoFullName)` has its status set to `cancelled` — whatever its
current status, terminal or not — and no other field changes (in
particular `completedAt` keeps its value, so a pending review's stays
unset); rows not matching the key are untouched. -/
theorem c9_cleanup_cancels_only_status (db : DB) (prNumber : Nat)
    (repoFullName : String) (i : Nat) (r : ReviewRow)
    (h : db.reviews[i]? = some r) :
    ∃ r', (cleanupReview db prNumber repoFullName).reviews[i]? = some r' ∧
      ((r.prNumber = prNumber ∧ r.repoFullName = repoFullName) →
        r'.status = "cancelled") ∧
      (¬(r.prNumber = prNumber ∧ r.repoFullName = repoFullName) → r' = r) ∧
      r'.id = r.id ∧ r'.prNumber = r.prNumber ∧ r'.repoFullName = r.repoFullName ∧
      r'.installationId = r.installationId ∧ r'.reviewData = r.reviewData ∧
      r'.createdAt = r.createdAt ∧ r'.completedAt = r.completedAt := by
  refine ⟨if keyB prNumber repoFullName r then { r with status := "cancelled" } else r,
    ?_, ?_, ?_, ?_, ?_, ?_, ?_, ?_, ?_, ?_⟩
  · simp [cleanupReview, List.getElem?_map, h]
  · intro hm
    have hk : keyB prNumber repoFullName r = true := by
      simp [keyB, hm.1, hm.2]
    simp [hk]
  · intro hm
    have hk : keyB prNumber repoFullName r = false :=
      keyB_eq_false_of_not prNumber repoFullName r hm
    simp [hk]
  all_goals by_cases hk : keyB prNumber repoFullName r = true <;> simp [hk]

/-- C10: the status-update operation (both its by-id and its by-key form)
sets `completedAt` only when the new status is `completed`; for every other
status — the pipeline's `failed` write and every intermediate `in_progress`
progress write included — only `status` and the `reviewData` blob change
and `completedAt` keeps its prior value; rows not selected are untouched. -/
theorem c10_completedAt_only_on_completed (db : DB) (reviewId : Nat)
    (status : String) (rd : ReviewData) (now : Nat) (prNumber : Nat)
    (repoFullName : String) (i : Nat) (r : ReviewRow)
    (h : db.reviews[i]? = some r) :
    (∃ r', (updateReviewStatusById db reviewId status rd now).reviews[i]? = some r' ∧
      (¬ r.id = reviewId → r' = r) ∧
      (r.id = reviewId →
        r'.status = status ∧ r'.reviewData = rd ∧
        (¬ status = "completed" → r'.completedAt = r.completedAt) ∧
        (status = "completed" → r'.completedAt = some now) ∧
        r'.id = r.id ∧ r'.prNumber = r.prNumber ∧
        r'.repoFullName = r.repoFullName ∧
        r'.installationId = r.installationId ∧ r'.createdAt = r.createdAt)) ∧
    (∃ r', (updateReviewStatusByKey db prNumber repoFullName status rd now).reviews[i]? =
        some r' ∧
      (¬(r.prNumber = prNumber ∧ r.repoFullName = repoFullName) → r' = r) ∧
      ((r.prNumber = prNumber ∧ r.repoFullName = repoFullName) →
        r'.status = status ∧ r'.reviewData = rd ∧
        (¬ status = "completed" → r'.completedAt = r.completedAt) ∧
        (status = "completed" → r'.completedAt = some now) ∧
        r'.id = r.id ∧ r'.prNumber = r.prNumber ∧
        r'.repoFullName = r.repoFullName ∧
        r'.installationId = r.installationId ∧ r'.createdAt = r.createdAt)) := by
  constructor
  · refine ⟨if r.id == reviewId then applyStatusUpdate status rd now r else r,
      ?_, ?_, ?_⟩
    · simp [updateReviewStatusById, List.getElem?_map, h]
    · intro hm
      have hk : (r.id == reviewId) = false := by simp [hm]
      simp [hk]
    · intro hm
      have hk : (r.id == reviewId) = true := by simp [hm]
      simp only [hk, if_true]
      refine ⟨rfl, rfl, ?_, ?_, rfl, rfl, rfl, rfl, rfl⟩
      · intro hs
        have : (status == "completed") = false := by simp [hs]
        simp [applyStatusUpdate, this]
      · intro hs
        have : (status == "completed") = true := by simp [hs]
        simp [applyStatusUpdate, this]
  · refine ⟨if keyB prNumber repoFullName r then applyStatusUpdate status rd now r else r,
      ?_, ?_, ?_⟩
    · simp [updateReviewStatusByKey, List.getElem?_map, h]
    · intro hm
      have hk : keyB prNumber repoFullName r = false :=
        keyB_eq_false_of_not prNumber repoFullName r hm
      simp [hk]
    · intro hm
      have hk : keyB prNumber repoFullName r = true := by
        simp [keyB, hm.1, hm.2]
      simp only [hk, if_true]
      refine ⟨rfl, rfl, ?_, ?_, rfl, rfl, rfl, rfl, rfl⟩
      · intro hs
        have : (status == "completed") = false := by simp [hs]
        simp [applyStatusUpdate, this]
      · intro hs
        have : (status == "completed") = true := by simp [hs]
        simp [applyStatusUpdate, this]

/-- A completed review row used to witness the frame theorems on concrete
data. -/
def exDoneRow : ReviewRow :=
  { id := 4, prNumber := 7, repoFullName := "acme/widgets", installationId := 1,
    status := "completed", reviewData := {}, createdAt := 2, completedAt := some 5 }

/-- A one-row store holding `exDoneRow`. -/
def exDoneDB : DB :=
  { reviews := [exDoneRow], fileChanges := [], reviewComments := [], nextReviewId := 5 }

/-- Witness for C9: cancelling the closed PR #7 flips even the completed
row's status to `cancelled` while its `completedAt` stays `some 5`. -/
theorem c9_witness :
    ∃ r', (cleanupReview exDoneDB 7 "acme/widgets").reviews[0]? = some r' ∧
      r'.status = "cancelled" ∧ r'.completedAt = some 5 ∧ r'.createdAt = 2 := by
  obtain ⟨r', h1, h2, _, _, _, _, _, _, h3, h4⟩ :=
    c9_cleanup_cancels_only_status exDoneDB 7 "acme/widgets" 0 exDoneRow rfl
  exact ⟨r', h1, h2 ⟨rfl, rfl⟩, h4, h3⟩

/-- Witness for C10: a `failed` write through the status-update operation
leaves `completedAt` untouched (`some 5`) while changing status and
metadata. -/
theorem c10_witness :
    ∃ r', (updateReviewStatusById exDoneDB 4 "failed"
        { error := some "boom" } 9).reviews[0]? = some r' ∧
      r'.status = "failed" ∧ r'.reviewData = { error := some "boom" } ∧
      r'.completedAt = some 5 := by
  obtain ⟨⟨r', h1, _, h2⟩, -⟩ :=
    c10_completedAt_only_on_completed exDoneDB 4 "failed" { error := some "boom" } 9
      7 "acme/widgets" 0 exDoneRow rfl
  obtain ⟨hs, hd, hca, -, -, -, -, -, -⟩ := h2 rfl
  exact ⟨r', h1, hs, hd, hca (by decide)⟩

/-! ## Lemmas for the re-queue invariant (C1)

Every lifecycle write preserves the identity projection `rkey` of the
review table; the transaction and pipeline effects on the derived tables are
computed exactly. -/

theorem rkey_applyStatusUpdate (status : String) (rd : ReviewData) (now : Nat)
    (r : ReviewRow) : rkey (applyStatusUpdate status rd now r) = rkey r := rfl

theorem rkey_pendRow (rd : ReviewData) (now : Nat) (r : ReviewRow) :
    rkey (pendRow rd now r) = rkey r := rfl

theorem keyB_eq_of_rkey_eq (prNumber : Nat) (repoFullName : String)
    (a b : ReviewRow) (h : rkey a = rkey b) :
    keyB prNumber repoFullName a = keyB prNumber repoFullName b := by
  have h1 : a.prNumber = b.prNumber := congrArg (fun k => k.2.1) h
  have h2 : a.repoFullName = b.repoFullName := congrArg (fun k => k.2.2) h
  simp [keyB, h1, h2]

@[simp]
theorem updId_reviews_rkey (db : DB) (reviewId : Nat) (status : String)
    (rd : ReviewData) (now : Nat) :
    ((updateReviewStatusById db reviewId status rd now).reviews).map rkey =
      db.reviews.map rkey := by
  simp only [updateReviewStatusById, List.map_map]
  have h : (rkey ∘ fun r =>
      if r.id == reviewId then applyStatusUpdate status rd now r else r) = rkey := by
    funext r
    by_cases hk : (r.id == reviewId) = true <;>
      simp [hk, rkey_applyStatusUpdate, Function.comp]
  rw [h]

@[simp]
theorem updId_fileChanges (db : DB) (reviewId : Nat) (status : String)
    (rd : ReviewData) (now : Nat) :
    (updateReviewStatusById db reviewId status rd now).fileChanges =
      db.fileChanges := rfl

@[simp]
theorem updId_reviewComments (db : DB) (reviewId : Nat) (status : String)
    (rd : ReviewData) (now : Nat) :
    (updateReviewStatusById db reviewId status rd now).reviewComments =
      db.reviewComments := rfl

@[simp]
theorem updId_nextReviewId (db : DB) (reviewId : Nat) (status : String)
    (rd : ReviewData) (now : Nat) :
    (updateReviewStatusById db reviewId status rd now).nextReviewId =
      db.nextReviewId := rfl

theorem processFiles_spec (reviewId : Nat) (files : List GitHubFile) :
    ∀ (db : DB) (total analyzedCount now : Nat),
      ((processFiles db reviewId files total analyzedCount now).reviews).map rkey =
        db.reviews.map rkey ∧
      (processFiles db reviewId files total analyzedCount now).fileChanges =
        db.fileChanges ++ files.map (fileChangeRowOf reviewId) ∧
      (processFiles db reviewId files total analyzedCount now).reviewComments =
        db.reviewComments ++ files.flatMap (commentRowsOf reviewId) ∧
      (processFiles db reviewId files total analyzedCount now).nextReviewId =
        db.nextReviewId := by
  induction files with
  | nil => intro db total analyzedCount now; simp [processFiles]
  | cons file rest ih =>
    intro db total analyzedCount now
    have hif : ∀ (l c : List ReviewCommentRow),
        (if c.isEmpty then l else l ++ c) = l ++ c := by
      intro l c; cases c <;> simp
    simp only [processFiles, hif]
    obtain ⟨h1, h2, h3, h4⟩ := ih _ total (analyzedCount + 1) now
    refine ⟨?_, ?_, ?_, ?_⟩
    · rw [h1, updId_reviews_rkey]
    · rw [h2]; simp
    · rw [h3]; simp
    · rw [h4]; rfl

theorem find?_id_some (db : DB) (reviewId : Nat)
    (hex : ∃ r ∈ db.reviews, r.id = reviewId) (status : String) (rd : ReviewData)
    (now : Nat) :
    ((updateReviewStatusById db reviewId status rd now).reviews.find?
      (fun r => r.id == reviewId)).isSome = true := by
  rcases hex with ⟨r, hr, hid⟩
  cases hf : (updateReviewStatusById db reviewId status rd now).reviews.find?
      (fun r => r.id == reviewId) with
  | some r' => rfl
  | none =>
    exfalso
    have hall := List.find?_eq_none.mp hf
    have hmem : (if r.id == reviewId then applyStatusUpdate status rd now r else r) ∈
        (updateReviewStatusById db reviewId status rd now).reviews :=
      List.mem_map_of_mem _ hr
    have hb : (r.id == reviewId) = true := by simp [hid]
    have hid' : (if r.id == reviewId then applyStatusUpdate status rd now r
        else r).id = reviewId := by
      split
      · exact hid
      · exact hid
    exact hall _ hmem (beq_iff_eq.mpr hid')

theorem startReviewProcess_spec (db : DB) (reviewId : Nat)
    (fetchResult : Except String (List GitHubFile)) (now : Nat)
    (hex : ∃ r ∈ db.reviews, r.id = reviewId) :
    ((startReviewProcess db reviewId fetchResult now).reviews).map rkey =
      db.reviews.map rkey ∧
    (startReviewProcess db reviewId fetchResult now).fileChanges =
      db.fileChanges ++ (fetchFiles fetchResult).map (fileChangeRowOf reviewId) ∧
    (startReviewProcess db reviewId fetchResult now).reviewComments =
      db.reviewComments ++ (fetchFiles fetchResult).flatMap (commentRowsOf reviewId) ∧
    (startReviewProcess db reviewId fetchResult now).nextReviewId =
      db.nextReviewId := by
  have hfind := find?_id_some db reviewId hex "in_progress"
    { step := some "fetching_files", progress := some 10 } now
  simp only [startReviewProcess]
  cases hf : (updateReviewStatusById db reviewId "in_progress"
      { step := some "fetching_files", progress := some 10 } now).reviews.find?
        (fun r => r.id == reviewId) with
  | none => rw [hf] at hfind; simp at hfind
  | some r0 =>
    cases fetchResult with
    | error e =>
      simp [fetchFiles, updId_reviews_rkey]
    | ok files =>
      obtain ⟨p1, p2, p3, p4⟩ := processFiles_spec reviewId files
        (updateReviewStatusById
          (updateReviewStatusById db reviewId "in_progress"
            { step := some "fetching_files", progress := some 10 } now)
          reviewId "in_progress"
          { step := some "analyzing_files", progress := some 30,
            files_found := some files.length } now) files.length 0 now
      by_cases he : files.isEmpty = true <;>
        simp [he, fetchFiles, updId_reviews_rkey, p1, p2, p3, p4]

theorem keyB_pendRow (prNumber : Nat) (repoFullName : String) (rd : ReviewData)
    (now : Nat) (r : ReviewRow) :
    keyB prNumber repoFullName (pendRow rd now r) = keyB prNumber repoFullName r := rfl

theorem upsertGo_none (prNumber : Nat) (repoFullName : String) (rd : ReviewData)
    (now : Nat) : ∀ l : List ReviewRow,
    (upsertGo prNumber repoFullName rd now l).1 = none →
    ∀ r ∈ l, keyB prNumber repoFullName r = false := by
  intro l
  induction l with
  | nil => intro _ r hr; cases hr
  | cons r0 rest ih =>
    intro h r hr
    by_cases hk : keyB prNumber repoFullName r0 = true
    · simp [upsertGo, hk] at h
    · simp only [upsertGo, hk, Bool.false_eq_true, if_false] at h
      rcases List.mem_cons.mp hr with rfl | hr'
      · exact Bool.eq_false_iff.mpr hk
      · exact ih h r hr'

theorem upsertGo_found (prNumber : Nat) (repoFullName : String) (rd : ReviewData)
    (now : Nat) : ∀ (l : List ReviewRow) (r' : ReviewRow) (rs : List ReviewRow),
    upsertGo prNumber repoFullName rd now l = (some r', rs) →
    keysOk (l.map rkey) = true →
    rs.map rkey = l.map rkey ∧
    rs.filter (keyB prNumber repoFullName) = [r'] ∧
    r'.status = "pending" ∧ r'.completedAt = none ∧
    r'.prNumber = prNumber ∧ r'.repoFullName = repoFullName := by
  intro l
  induction l with
  | nil => intro r' rs h _; simp [upsertGo] at h
  | cons r0 rest ih =>
    intro r' rs h hok
    have hboth := hok
    simp only [List.map_cons, keysOk, Bool.and_eq_true] at hboth
    obtain ⟨hok1, hok2⟩ := hboth
    by_cases hk : keyB prNumber repoFullName r0 = true
    · simp only [upsertGo, hk, if_true, Prod.mk.injEq, Option.some.injEq] at h
      obtain ⟨hr', hrs⟩ := h
      have hkey0 : r0.prNumber = prNumber ∧ r0.repoFullName = repoFullName :=
        (keyB_eq_true_iff prNumber repoFullName r0).mp hk
      have hrest : ∀ x ∈ rest, keyB prNumber repoFullName x = false := by
        intro x hx
        have hall := List.all_eq_true.mp hok1 (rkey x) (List.mem_map_of_mem rkey hx)
        cases hkx : keyB prNumber repoFullName x
        · rfl
        · exfalso
          have hxkey := (keyB_eq_true_iff prNumber repoFullName x).mp hkx
          have : keyClash (rkey r0) (rkey x) = true := by
            simp [keyClash, rkey, hkey0.1, hkey0.2, hxkey.1, hxkey.2]
          simp [this] at hall
      subst hr' hrs
      refine ⟨by simp [rkey_pendRow], ?_, rfl, rfl, hkey0.1, hkey0.2⟩
      have hkp : keyB prNumber repoFullName (pendRow rd now r0) = true := by
        rw [keyB_pendRow]; exact hk
      rw [List.filter_cons, hkp]
      simp only [if_true]
      rw [List.filter_eq_nil_iff.mpr (fun a ha => by simp [hrest a ha])]
    · simp only [upsertGo, hk, Bool.false_eq_true, if_false, Prod.mk.injEq] at h
      obtain ⟨h1, hrs⟩ := h
      obtain ⟨g1, g2, g3, g4, g5, g6⟩ := ih r'
        (upsertGo prNumber repoFullName rd now rest).2
        (by rw [← h1]) hok2
      subst hrs
      refine ⟨by simp [g1], ?_, g3, g4, g5, g6⟩
      rw [List.filter_cons]
      have hkf : keyB prNumber repoFullName r0 = false := Bool.eq_false_iff.mpr hk
      rw [hkf]
      simpa using g2

theorem bool_and_split {a b : Bool} (h : (a && b) = true) : a = true ∧ b = true := by
  simp only [Bool.and_eq_true] at h; exact h

theorem bool_and_join {a b : Bool} (h1 : a = true) (h2 : b = true) :
    (a && b) = true := by
  rw [h1, h2]; rfl

theorem keysOk_append_one (k : Nat × Nat × String) :
    ∀ ks : List (Nat × Nat × String), keysOk ks = true →
    (∀ x ∈ ks, keyClash x k = false) → keysOk (ks ++ [k]) = true := by
  intro ks
  induction ks with
  | nil => intro _ _; simp [keysOk]
  | cons k0 rest ih =>
    intro hok hall
    obtain ⟨h1, h2⟩ := bool_and_split hok
    simp only [List.cons_append, keysOk]
    refine bool_and_join ?_ (ih h2 (fun x hx => hall x (List.mem_cons_of_mem k0 hx)))
    simp only [List.append_eq, List.all_append]
    refine bool_and_join h1 ?_
    simp [hall k0 (List.mem_cons_self k0 rest)]

theorem wfB_parts (db : DB) (hwf : db.wfB = true) :
    keysOk (db.reviews.map rkey) = true ∧
    (db.reviews.map rkey).all (fun k => k.1 < db.nextReviewId) = true :=
  bool_and_split hwf

theorem reviewUpsert_spec (db : DB) (prNumber : Nat) (repoFullName : String)
    (installationId : Nat) (rd : ReviewData) (now : Nat) (hwf : db.wfB = true)
    (db' : DB) (r' : ReviewRow)
    (h : reviewUpsert db prNumber repoFullName installationId rd now = (db', r')) :
    db'.wfB = true ∧
    db'.reviews.filter (keyB prNumber repoFullName) = [r'] ∧
    r'.status = "pending" ∧
    db'.fileChanges = db.fileChanges ∧
    db'.reviewComments = db.reviewComments ∧
    db'.nextReviewId ≥ db.nextReviewId ∧
    (∃ r ∈ db'.reviews, r.id = r'.id) := by
  obtain ⟨hok, hbound⟩ := wfB_parts db hwf
  cases hu : upsertGo prNumber repoFullName rd now db.reviews with
  | mk o rs =>
    cases o with
    | some rr =>
      simp only [reviewUpsert, hu, Prod.mk.injEq] at h
      obtain ⟨hdb, hr⟩ := h
      subst hdb hr
      obtain ⟨g1, g2, g3, _, _, _⟩ :=
        upsertGo_found prNumber repoFullName rd now db.reviews rr rs hu hok
      refine ⟨?_, g2, g3, rfl, rfl, Nat.le_refl _, ?_⟩
      · simp only [DB.wfB, g1]
        exact bool_and_join hok hbound
      · refine ⟨rr, ?_, rfl⟩
        have hmem : rr ∈ rs.filter (keyB prNumber repoFullName) := by
          rw [g2]; exact List.mem_cons_self rr []
        exact List.mem_of_mem_filter hmem
    | none =>
      have hnone : ∀ r ∈ db.reviews, keyB prNumber repoFullName r = false :=
        upsertGo_none prNumber repoFullName rd now db.reviews (by rw [hu])
      simp only [reviewUpsert, hu, Prod.mk.injEq] at h
      obtain ⟨hdb, hr⟩ := h
      subst hdb hr
      refine ⟨?_, ?_, rfl, rfl, rfl, Nat.le_succ _, ?_⟩
      · -- well-formedness of the store holding the created row
        simp only [DB.wfB, List.map_append, List.map_cons, List.map_nil]
        refine bool_and_join ?_ ?_
        · refine keysOk_append_one _ _ hok ?_
          intro x hx
          rcases List.mem_map.mp hx with ⟨r, hr, rfl⟩
          have hb := List.all_eq_true.mp hbound (rkey r) (List.mem_map_of_mem rkey hr)
          have hlt : r.id < db.nextReviewId := by simpa using hb
          have hkf := hnone r hr
          have hkey : ¬(r.prNumber = prNumber ∧ r.repoFullName = repoFullName) := by
            intro hc
            rw [(keyB_eq_true_iff prNumber repoFullName r).mpr hc] at hkf
            cases hkf
          simp only [keyClash, rkey, Bool.or_eq_false_iff, Bool.and_eq_false_iff]
          constructor
          · simp [Nat.ne_of_lt hlt]
          · by_cases hp : r.prNumber = prNumber
            · right
              have hq : ¬ r.repoFullName = repoFullName := fun hq => hkey ⟨hp, hq⟩
              simp [hq]
            · left
              simp [hp]
        · simp only [List.all_append]
          refine bool_and_join ?_ (by simp [rkey])
          refine List.all_eq_true.mpr ?_
          intro k hk
          have hb := List.all_eq_true.mp hbound k hk
          simp only [decide_eq_true_eq] at hb ⊢
          exact Nat.lt_succ_of_lt hb
      · rw [List.filter_append, List.filter_eq_nil_iff.mpr
          (fun a ha => by simp [hnone a ha])]
        simp [keyB]
      · exact ⟨_, List.mem_append_right _ (List.mem_cons_self _ []), rfl⟩

theorem queueReviewTxn_spec (db : DB) (prNumber : Nat) (repoFullName : String)
    (installationId : Nat) (rd : ReviewData) (now : Nat) (hwf : db.wfB = true)
    (db' : DB) (rid : Nat)
    (h : queueReviewTxn db prNumber repoFullName installationId rd now = (db', rid)) :
    db'.wfB = true ∧
    (∃ row, db'.reviews.filter (keyB prNumber repoFullName) = [row] ∧
      row.id = rid ∧ row.status = "pending") ∧
    db'.fileChanges = db.fileChanges.filter (fun c => !(c.reviewId == rid)) ∧
    db'.reviewComments = db.reviewComments.filter (fun c => !(c.reviewId == rid)) ∧
    (∃ r ∈ db'.reviews, r.id = rid) := by
  cases hu : reviewUpsert db prNumber repoFullName installationId rd now with
  | mk udb urow =>
    obtain ⟨s1, s2, s3, s4, s5, _, s7⟩ :=
      reviewUpsert_spec db prNumber repoFullName installationId rd now hwf udb urow hu
    simp only [queueReviewTxn, hu, Prod.mk.injEq] at h
    obtain ⟨hdb, hrid⟩ := h
    subst hdb hrid
    refine ⟨s1, ⟨urow, s2, rfl, s3⟩, by rw [s4], by rw [s5], s7⟩

theorem wfB_of_parts (a b : DB) (h1 : a.reviews.map rkey = b.reviews.map rkey)
    (h2 : a.nextReviewId = b.nextReviewId) (hb : b.wfB = true) : a.wfB = true := by
  simp only [DB.wfB, h1, h2]
  exact hb

theorem filter_keyB_rkey_transfer (prNumber : Nat) (repoFullName : String) :
    ∀ l1 l2 : List ReviewRow, l1.map rkey = l2.map rkey →
    (l1.filter (keyB prNumber repoFullName)).map rkey =
      (l2.filter (keyB prNumber repoFullName)).map rkey := by
  intro l1
  induction l1 with
  | nil =>
    intro l2 h
    have : l2 = [] := List.map_eq_nil_iff.mp h.symm
    subst this
    rfl
  | cons r t ih =>
    intro l2 h
    cases l2 with
    | nil => simp at h
    | cons r2 t2 =>
      simp only [List.map_cons, List.cons.injEq] at h
      obtain ⟨hh, ht⟩ := h
      have hk := keyB_eq_of_rkey_eq prNumber repoFullName r r2 hh
      rw [List.filter_cons, List.filter_cons, hk]
      cases hk2 : keyB prNumber repoFullName r2 <;> simp [hk2, hh, ih t2 ht]

theorem filter_erased_nil {α : Type} (g : α → Nat) (rid : Nat) (l : List α) :
    ((l.filter (fun c => !(g c == rid))).filter (fun c => g c == rid)) = [] := by
  rw [List.filter_filter]
  refine List.filter_eq_nil_iff.mpr ?_
  intro a _
  cases h : g a == rid <;> simp [h]

theorem filter_id_map_rows (rid : Nat) (files : List GitHubFile) :
    (files.map (fileChangeRowOf rid)).filter (fun c => c.reviewId == rid) =
      files.map (fileChangeRowOf rid) := by
  refine List.filter_eq_self.mpr ?_
  intro a ha
  rcases List.mem_map.mp ha with ⟨f, _, rfl⟩
  simp [fileChangeRowOf]

theorem filter_id_flatMap_rows (rid : Nat) (files : List GitHubFile) :
    (files.flatMap (commentRowsOf rid)).filter (fun c => c.reviewId == rid) =
      files.flatMap (commentRowsOf rid) := by
  refine List.filter_eq_self.mpr ?_
  intro a ha
  rcases List.mem_flatMap.mp ha with ⟨f, _, hf⟩
  rcases List.mem_map.mp hf with ⟨i, _, rfl⟩
  simp [commentRowsOf]

theorem queueReview_wfB (db : DB) (pr : PullRequestInfo) (repoFullName : String)
    (installationId : Nat) (fetchResult : Except String (List GitHubFile))
    (now : Nat) (hwf : db.wfB = true) :
    (queueReview db pr repoFullName installationId fetchResult now).wfB = true := by
  cases ht : queueReviewTxn db pr.number repoFullName installationId
      (initialReviewData pr) now with
  | mk tdb rid =>
    obtain ⟨t1, _, _, _, t5⟩ := queueReviewTxn_spec db pr.number repoFullName
      installationId (initialReviewData pr) now hwf tdb rid ht
    obtain ⟨p1, _, _, p4⟩ := startReviewProcess_spec tdb rid fetchResult now t5
    simp only [queueReview, ht]
    exact wfB_of_parts _ tdb p1 p4 t1

/-- C1: for any well-formed store, re-queuing the same
`(prNumber, repoFullName)` twice leaves exactly one Review row for that key;
the upsert to `pending` and the deletion of all prior derived
`FileChange`/`ReviewComment` rows are one atomic transaction, immediately
after which the key row is `pending` and owns no derived rows (so no reader
sees a partially-cleared state); and after the second run completes, the
derived rows owned by the key's review are exactly the rows produced by the
second run's file list — nothing from the first run survives. -/
theorem c1_requeue_replaces_derived_rows (db : DB) (pr : PullRequestInfo)
    (repoFullName : String) (inst1 inst2 : Nat)
    (fetch1 : Except String (List GitHubFile)) (files2 : List GitHubFile)
    (t1 t2 : Nat) (hwf : db.wfB = true) :
    ((queueReview (queueReview db pr repoFullName inst1 fetch1 t1) pr repoFullName
        inst2 (Except.ok files2) t2).reviews.filter
        (keyB pr.number repoFullName)).length = 1 ∧
    (∀ dbT rid,
      queueReviewTxn (queueReview db pr repoFullName inst1 fetch1 t1) pr.number
        repoFullName inst2 (initialReviewData pr) t2 = (dbT, rid) →
      (∃ row, dbT.reviews.filter (keyB pr.number repoFullName) = [row] ∧
        row.id = rid ∧ row.status = "pending") ∧
      dbT.fileChanges.filter (fun c => c.reviewId == rid) = [] ∧
      dbT.reviewComments.filter (fun c => c.reviewId == rid) = []) ∧
    (∀ r ∈ (queueReview (queueReview db pr repoFullName inst1 fetch1 t1) pr
        repoFullName inst2 (Except.ok files2) t2).reviews,
      keyB pr.number repoFullName r = true →
      (queueReview (queueReview db pr repoFullName inst1 fetch1 t1) pr repoFullName
          inst2 (Except.ok files2) t2).fileChanges.filter
          (fun c => c.reviewId == r.id) = files2.map (fileChangeRowOf r.id) ∧
      (queueReview (queueReview db pr repoFullName inst1 fetch1 t1) pr repoFullName
          inst2 (Except.ok files2) t2).reviewComments.filter
          (fun c => c.reviewId == r.id) = files2.flatMap (commentRowsOf r.id)) := by
  have hwf1 : (queueReview db pr repoFullName inst1 fetch1 t1).wfB = true :=
    queueReview_wfB db pr repoFullName inst1 fetch1 t1 hwf
  set db1 := queueReview db pr repoFullName inst1 fetch1 t1 with hdb1
  cases ht2 : queueReviewTxn db1 pr.number repoFullName inst2
      (initialReviewData pr) t2 with
  | mk tdb2 rid2 =>
    obtain ⟨w1, ⟨row, hrow, hrowid, hrowst⟩, w3, w4, w5⟩ :=
      queueReviewTxn_spec db1 pr.number repoFullName inst2 (initialReviewData pr)
        t2 hwf1 tdb2 rid2 ht2
    obtain ⟨p1, p2, p3, _⟩ :=
      startReviewProcess_spec tdb2 rid2 (Except.ok files2) t2 w5
    have hq2 : queueReview db1 pr repoFullName inst2 (Except.ok files2) t2 =
        startReviewProcess tdb2 rid2 (Except.ok files2) t2 := by
      simp only [queueReview, ht2]
    have hmapfilter :
        ((startReviewProcess tdb2 rid2 (Except.ok files2) t2).reviews.filter
          (keyB pr.number repoFullName)).map rkey = [rkey row] := by
      rw [filter_keyB_rkey_transfer pr.number repoFullName _ tdb2.reviews p1, hrow]
      rfl
    have hff : fetchFiles (Except.ok files2) = files2 := rfl
    refine ⟨?_, ?_, ?_⟩
    · rw [hq2]
      have hlen := congrArg List.length hmapfilter
      simpa using hlen
    · intro dbT rid htxn
      injection htxn with hdT hrT
      subst hdT hrT
      refine ⟨⟨row, hrow, hrowid, hrowst⟩, ?_, ?_⟩
      · rw [w3]
        exact filter_erased_nil FileChangeRow.reviewId rid2 db1.fileChanges
      · rw [w4]
        exact filter_erased_nil ReviewCommentRow.reviewId rid2 db1.reviewComments
    · intro r hr hkeyr
      rw [hq2] at hr
      have hrmem : r ∈ (startReviewProcess tdb2 rid2 (Except.ok files2)
          t2).reviews.filter (keyB pr.number repoFullName) :=
        List.mem_filter.mpr ⟨hr, hkeyr⟩
      have hrk : rkey r ∈
          ((startReviewProcess tdb2 rid2 (Except.ok files2) t2).reviews.filter
            (keyB pr.number repoFullName)).map rkey :=
        List.mem_map_of_mem rkey hrmem
      rw [hmapfilter] at hrk
      have hre : rkey r = rkey row := by simpa using hrk
      have hid : r.id = rid2 := by
        have := congrArg (fun k => k.1) hre
        simpa [rkey, hrowid] using this
      constructor
      · rw [hq2, p2, w3, hid, hff, List.filter_append,
          filter_erased_nil FileChangeRow.reviewId rid2 db1.fileChanges,
          filter_id_map_rows]
        rfl
      · rw [hq2, p3, w4, hid, hff, List.filter_append,
          filter_erased_nil ReviewCommentRow.reviewId rid2 db1.reviewComments,
          filter_id_flatMap_rows]
        rfl

/-- Witness for C1: re-queuing PR #12 twice on the empty store leaves exactly
one Review row for the key. -/
theorem c1_witness :
    ((queueReview (queueReview emptyDB prEx12 "acme/widgets" 1
        (Except.ok [fileAJs, fileBPng]) 0) prEx12 "acme/widgets" 2
        (Except.ok [fileAJs, fileBPng]) 1).reviews.filter
        (keyB prEx12.number "acme/widgets")).length = 1 := by
  exact (c1_requeue_replaces_derived_rows emptyDB prEx12 "acme/widgets" 1 2
    (Except.ok [fileAJs, fileBPng]) [fileAJs, fileBPng] 0 1 (by decide)).1

end CodeReviewer
